import Mathlib

/-!
Shallow embedding of `src/prefect/orion/utilities/database.py`: the portable
column-type codecs (`Timestamp`, `Pydantic`, `UUID`), the engine and
session-factory caches, the sqlite first-connection hook, the UUID
server-default SQL generators and the camel-to-snake table-name rule,
together with theorems settling the spec's claims about them.
-/

set_option autoImplicit false

/-- The backend dialects this module branches on (`dialect.name` in the
source): `postgresql` (the full-featured server dialect) and `sqlite`
(the lightweight embedded dialect). -/
inductive Dialect where
  | postgresql
  | sqlite
deriving DecidableEq, Repr

/-- Model of a Python `datetime` / pendulum instant as the codecs see it:
a local wall-clock reading (microseconds) plus an optional UTC offset
(microseconds).  `tzOffset = none` models a naive datetime
(`value.tzinfo is None`); `some off` a timezone-aware one whose absolute
time is `wall - off`. -/
structure Instant where
  wall : Int
  tzOffset : Option Int
deriving DecidableEq, Repr

/-- Model of `pendulum.instance(value)`: a naive datetime is given the UTC timezone
(its wall-clock fields are read as UTC), an aware one is kept as is. -/
def pendulumInstance (t : Instant) : Instant :=
  match t.tzOffset with
  | none => { wall := t.wall, tzOffset := some 0 }
  | some _ => t

/-- Semantics of `.in_timezone("UTC")` on an aware instant: the absolute time is kept and
the offset becomes 0, so the wall clock shifts by the old offset.  (On a
naive instant pendulum first assumes UTC; the codecs below only reach this
through `pendulumInstance`.) -/
def inTimezoneUTC (t : Instant) : Instant :=
  match t.tzOffset with
  | some off => { wall := t.wall - off, tzOffset := some 0 }
  | none => { wall := t.wall, tzOffset := some 0 }

/-- The `ValueError("Timestamps must have a timezone.")` raised by
`Timestamp.process_bind_param`. -/
inductive TimestampError where
  | missingTimezone
deriving DecidableEq, Repr

namespace Timestamp

/-- Encode step `Timestamp.process_bind_param`: `None` passes through; a naive timestamp
is a hard error; for sqlite the value is converted to UTC; otherwise it is
passed through unchanged. -/
def process_bind_param (value : Option Instant) (dialect : Dialect) :
    Except TimestampError (Option Instant) :=
  match value with
  | none => .ok none
  | some v =>
    if v.tzOffset = none then
      .error .missingTimezone
    else if dialect = .sqlite then
      .ok (some (inTimezoneUTC (pendulumInstance v)))
    else
      .ok (some v)

/-- Decode step `Timestamp.process_result_value`: a non-`None` stored value is
reinterpreted as a pendulum instant and converted to UTC; `None` falls
through to `None`. -/
def process_result_value (value : Option Instant) (_dialect : Dialect) :
    Option Instant :=
  match value with
  | none => none
  | some v => some (inTimezoneUTC (pendulumInstance v))

/-- Decode after encode for the `Timestamp` codec, propagating the encode
error. -/
def roundtrip (value : Option Instant) (dialect : Dialect) :
    Except TimestampError (Option Instant) :=
  match process_bind_param value dialect with
  | .ok enc => .ok (process_result_value enc dialect)
  | .error e => .error e

end Timestamp

/-- Lowercase hexadecimal digit character for a nibble `n < 16`. -/
def hexDigit (n : Nat) : Char :=
  if n < 10 then Char.ofNat (48 + n) else Char.ofNat (87 + n)

/-- Numeric value of a hexadecimal digit character (0 on other input). -/
def hexVal (c : Char) : Nat :=
  if 48 ≤ c.toNat ∧ c.toNat ≤ 57 then c.toNat - 48
  else if 97 ≤ c.toNat ∧ c.toNat ≤ 102 then c.toNat - 87
  else if 65 ≤ c.toNat ∧ c.toNat ≤ 70 then c.toNat - 55
  else 0

/-- Hexadecimal digit character, either case (as accepted by Python's
`int(s, 16)`). -/
def isHexChar (c : Char) : Bool :=
  decide (48 ≤ c.toNat ∧ c.toNat ≤ 57) ||
  decide (97 ≤ c.toNat ∧ c.toNat ≤ 102) ||
  decide (65 ≤ c.toNat ∧ c.toNat ≤ 70)

/-- Lowercase hexadecimal digit character. -/
def isHexLowerChar (c : Char) : Bool :=
  decide (48 ≤ c.toNat ∧ c.toNat ≤ 57) ||
  decide (97 ≤ c.toNat ∧ c.toNat ≤ 102)

/-- Big-endian fixed-width hexadecimal rendering of a natural number
(`"%0*x" % (w, n)` for `n < 16 ^ w`). -/
def natToHex : Nat → Nat → List Char
  | 0, _ => []
  | w + 1, n => hexDigit (n / 16 ^ w) :: natToHex w (n % 16 ^ w)

/-- Value of a big-endian string of hexadecimal digits (`int(s, 16)`). -/
def hexListToNat : List Char → Nat
  | [] => 0
  | c :: rest => hexVal c * 16 ^ rest.length + hexListToNat rest

/-- Canonical rendering `str(uuid.UUID(int=n))`: the 8-4-4-4-12 lowercase hyphenated
rendering of a 128-bit integer. -/
def uuidStr (n : Nat) : String :=
  let ds := natToHex 32 n
  ⟨ds.take 8 ++ '-' :: (ds.drop 8).take 4 ++ '-' :: (ds.drop 12).take 4 ++
    '-' :: (ds.drop 16).take 4 ++ '-' :: ds.drop 20⟩

/-- The parsing path of `uuid.UUID(hex=s)` reachable from this module's
values: hyphens are removed, the remainder must be 32 hexadecimal digits,
and its value is read base 16.  (The constructor's stripping of `urn:`
prefixes and surrounding braces is omitted; no value produced or stored by
this module carries them.) -/
def uuidParse (s : String) : Option Nat :=
  let hex := s.data.filter (fun c => c != '-')
  if hex.length = 32 ∧ hex.all isHexChar then some (hexListToNat hex) else none

/-- The `ValueError` raised by `uuid.UUID` on a malformed string. -/
inductive UuidError where
  | malformedIdentifier
deriving DecidableEq, Repr

/-- A value reaching the UUID codec: either a `uuid.UUID` instance (carrying
its 128-bit integer) or a string. -/
inductive UuidValue where
  | uuid (n : Nat)
  | str (s : String)
deriving DecidableEq, Repr

/-- Python `str(value)`: canonical rendering of a UUID instance, identity on a
string. -/
def uuidValueStr : UuidValue → String
  | .uuid n => uuidStr n
  | .str s => s

namespace UUID

/-- Encode step `UUID.process_bind_param`: `None` passes through; on postgresql the
value is rendered with `str`; elsewhere a UUID instance is rendered with
`str` and a string is normalized through `str(uuid.UUID(value))`, raising
on a malformed string. -/
def process_bind_param (value : Option UuidValue) (dialect : Dialect) :
    Except UuidError (Option String) :=
  match value with
  | none => .ok none
  | some v =>
    if dialect = .postgresql then
      .ok (some (uuidValueStr v))
    else
      match v with
      | .uuid n => .ok (some (uuidStr n))
      | .str s =>
        match uuidParse s with
        | some n => .ok (some (uuidStr n))
        | none => .error .malformedIdentifier

/-- Decode step `UUID.process_result_value`: `None` passes through; a value that is not
already a UUID instance is parsed with `uuid.UUID(value)`. -/
def process_result_value (value : Option UuidValue) (_dialect : Dialect) :
    Except UuidError (Option Nat) :=
  match value with
  | none => .ok none
  | some (.uuid n) => .ok (some n)
  | some (.str s) =>
    match uuidParse s with
    | some n => .ok (some n)
    | none => .error .malformedIdentifier

end UUID

/-- A JSON-compatible native tree: the python-native collections produced
by `json.loads` (dict, list, str, int, bool, None). -/
inductive Json where
  | null
  | bool (b : Bool)
  | num (n : Int)
  | str (s : String)
  | arr (elts : List Json)
  | obj (fields : List (String × Json))

/-- A `pydantic.ValidationError`, listing the violating fields. -/
structure SchemaValidationError where
  violating_fields : List String
deriving DecidableEq, Repr

/-- Model of the pydantic type `T` held by a `Pydantic` column
(`self._pydantic_type`), as exercised through the external pydantic
library: `parse_obj_as` validates and hydrates a value (raising a
validation error on a non-conforming one), and `encodeTree` is
`json.loads(json.dumps(·, default=pydantic.json.pydantic_encoder))`, the
canonical serialization of a hydrated document to a JSON-compatible native
tree.  The field `parse_encode` records the pydantic library's round-trip
contract that this module relies on: re-parsing the canonical serialization
of a conforming document recovers it. -/
structure PydanticModel where
  parse_obj_as : Json → Except SchemaValidationError Json
  encodeTree : Json → Json
  parse_encode : ∀ v, parse_obj_as v = .ok v → parse_obj_as (encodeTree v) = .ok v

namespace Pydantic

/-- Encode step `Pydantic.process_bind_param`: `None` passes through; otherwise the
value is parsed against the declared schema (propagating validation
errors) and the hydrated value is dumped to a JSON-compatible native
tree. -/
def process_bind_param (T : PydanticModel) (value : Option Json)
    (_dialect : Dialect) : Except SchemaValidationError (Option Json) :=
  match value with
  | none => .ok none
  | some v =>
    match T.parse_obj_as v with
    | .ok hydrated => .ok (some (T.encodeTree hydrated))
    | .error e => .error e

/-- Decode step `Pydantic.process_result_value`: `None` passes through; otherwise the
stored tree is hydrated back into the typed object, re-validating it. -/
def process_result_value (T : PydanticModel) (value : Option Json)
    (_dialect : Dialect) : Except SchemaValidationError (Option Json) :=
  match value with
  | none => .ok none
  | some v =>
    match T.parse_obj_as v with
    | .ok hydrated => .ok (some hydrated)
    | .error e => .error e

/-- Decode after encode for the `Pydantic` codec, propagating errors. -/
def roundtrip (T : PydanticModel) (value : Option Json) (dialect : Dialect) :
    Except SchemaValidationError (Option Json) :=
  match process_bind_param T value dialect with
  | .ok enc => process_result_value T enc dialect
  | .error e => .error e

end Pydantic

/-- A concrete pydantic schema used to instantiate the codec theorems: the
documents are JSON strings, anything else is rejected. -/
def strSchema : PydanticModel where
  parse_obj_as v :=
    match v with
    | .str s => .ok (.str s)
    | _ => .error ⟨["__root__"]⟩
  encodeTree v := v
  parse_encode _ hv := hv

/-- Process-wide settings consulted for defaulted arguments
(`settings.orion.database.connection_url` and `settings.orion.database.echo`). -/
structure Settings where
  connection_url : String
  echo : Bool

/-- Key of the `ENGINES` cache: the current event loop (the execution
context, modelled by an identifier), the connection url and the echo
flag. -/
abbrev EngineKey := Nat × String × Bool

/-- Association-list lookup, modelling Python `dict` membership and
indexing for the module-level caches. -/
def assocFind {κ : Type} [DecidableEq κ] (entries : List (κ × Nat)) (k : κ) :
    Option Nat :=
  match entries with
  | [] => none
  | (k2, v) :: rest => if k2 = k then some v else assocFind rest k

/-- Every entry's value is below the allocator's next identity. -/
def CacheBounded {κ : Type} (entries : List (κ × Nat)) (next : Nat) : Prop :=
  ∀ k v, (k, v) ∈ entries → v < next

/-- Distinct keys never map to the same cached identity. -/
def CacheInj {κ : Type} (entries : List (κ × Nat)) : Prop :=
  ∀ k1 v1 k2 v2, (k1, v1) ∈ entries → (k2, v2) ∈ entries → v1 = v2 → k1 = k2

/-- The `if cache_key not in CACHE: CACHE[cache_key] = make(); return
CACHE[cache_key]` idiom: look the key up and on a miss store a freshly
created object, modelled by a fresh identity from the allocator. -/
def memoAlloc {κ : Type} [DecidableEq κ] (k : κ) (entries : List (κ × Nat))
    (next : Nat) : Nat × List (κ × Nat) × Nat :=
  match assocFind entries k with
  | some v => (v, entries, next)
  | none => (next, (k, next) :: entries, next + 1)

/-- The `ENGINES` module-level dict together with the allocator modelling
object identity of engines created by `create_async_engine`. -/
structure EngineCache where
  entries : List (EngineKey × Nat)
  nextId : Nat

/-- A connect/creation failure raised inside `get_engine`. -/
inductive ConnError where
  | connectionFailure
deriving DecidableEq, Repr

/-- Model of `get_engine`: arguments defaulted from settings when absent; the cache
key is `(current event loop, connection_url, echo)`; on a miss
`create_async_engine` runs — its outcome modelled by `create`, either a
fresh engine identity or an exception — and only a successful result is
stored (`ENGINES[cache_key] = create_async_engine(...)` assigns nothing
when the right-hand side raises, so the cache is unchanged on error). -/
def get_engine (st : Settings) (create : Except ConnError Unit) (loop : Nat)
    (connection_url : Option String) (echo : Option Bool) (s : EngineCache) :
    Except ConnError Nat × EngineCache :=
  let url := connection_url.getD st.connection_url
  let e := echo.getD st.echo
  let key : EngineKey := (loop, url, e)
  match assocFind s.entries key with
  | some eng => (.ok eng, s)
  | none =>
    match create with
    | .ok _ => (.ok s.nextId, ⟨(key, s.nextId) :: s.entries, s.nextId + 1⟩)
    | .error err => (.error err, s)

/-- Well-formedness of every reachable `ENGINES` state: cached identities
are below the allocator and distinct keys hold distinct engines. -/
def EngineCache.WF (s : EngineCache) : Prop :=
  CacheBounded s.entries s.nextId ∧ CacheInj s.entries

/-- The `SESSION_FACTORIES` module-level dict, plus the per-factory scoped
registries that `async_scoped_session(session_factory,
scopefunc=current_task)` keeps (one session per task), with allocators
modelling object identity of factories and sessions. -/
structure SessionCache where
  factories : List ((Nat × Nat) × Nat)
  nextFactory : Nat
  sessions : List ((Nat × Nat) × Nat)
  nextSession : Nat

/-- Model of `get_session_factory`: cache key `(current event loop, bind)`; on a
miss a `sessionmaker` wrapped in `async_scoped_session(...,
scopefunc=current_task)` is created and stored.  `bind` is the engine
identity (when called with `bind=None` the source first recovers one via
`get_engine()`). -/
def get_session_factory (loop : Nat) (bind : Nat) (s : SessionCache) :
    Nat × SessionCache :=
  let r := memoAlloc (loop, bind) s.factories s.nextFactory
  (r.1, { s with factories := r.2.1, nextFactory := r.2.2 })

/-- Invoking an `async_scoped_session` factory from a task: the scoped
registry keyed by `scopefunc=current_task` hands back the task's existing
session, or creates and registers a fresh one for this task. -/
def call_session_factory (factory : Nat) (task : Nat) (s : SessionCache) :
    Nat × SessionCache :=
  let r := memoAlloc (factory, task) s.sessions s.nextSession
  (r.1, { s with sessions := r.2.1, nextSession := r.2.2 })

/-- Well-formedness of every reachable `SESSION_FACTORIES` state. -/
def SessionCache.WF (s : SessionCache) : Prop :=
  CacheBounded s.factories s.nextFactory ∧ CacheInj s.factories ∧
  CacheBounded s.sessions s.nextSession ∧ CacheInj s.sessions

/-- The engine url as `setup_sqlite` inspects it: the backend name
(`conn.engine.url.get_backend_name()`) and the database field
(`conn.engine.url.database`, `None` when absent). -/
structure ConnUrl where
  backend : String
  database : Option String
deriving DecidableEq, Repr

/-- The observable side effects of the sqlite first-connection hook. -/
inductive SetupEffect where
  | enableForeignKeys
  | createAllTables
deriving DecidableEq, Repr

/-- Body of `setup_sqlite`: on a sqlite engine, execute
`PRAGMA foreign_keys=ON`, and additionally create all Orion tables when
the database is in-memory (`":memory:"` or `None`); no effect on other
backends. -/
def setup_sqlite (url : ConnUrl) : List SetupEffect :=
  if url.backend = "sqlite" then
    .enableForeignKeys ::
      (if url.database = some ":memory:" ∨ url.database = none then
        [SetupEffect.createAllTables]
      else [])
  else []

/-- Registration `@listens_for(sa.engine.Engine, "engine_connect", once=True)`: the
listener is invoked for the first `engine_connect` event in the process
only — whichever engine it belongs to — and never again.  Given the
sequence of connection events, returns the effects performed, each tagged
with the index of the event that performed it. -/
def run_engine_connect_events (events : List ConnUrl) :
    List (Nat × SetupEffect) :=
  match events with
  | [] => []
  | e :: _ => (setup_sqlite e).map (fun eff => (0, eff))

/-- SQL fragment emitted by `visit_custom_uuid_default_for_postgres` as
the id default on postgresql. -/
def visit_custom_uuid_default_for_postgres : String :=
  "(GEN_RANDOM_UUID())"

/-- Semantics of `lower(hex(randomblob(k)))` applied to the blob's bytes: sqlite's
`hex` renders each byte as two uppercase hexadecimal digits and `lower`
folds them to lowercase. -/
def hexBlobLower (bytes : List Nat) : List Char :=
  bytes.flatMap (fun b => [hexDigit (b / 16), hexDigit (b % 16)])

/-- Semantics of `substr('89ab', abs(random()) % 4 + 1, 1)`: one character of `"89ab"`,
chosen by the absolute value of sqlite's `random()` (1-based `substr`). -/
def variantChar (r : Nat) : Char :=
  (['8', '9', 'a', 'b']).getD (r % 4) ' '

/-- Semantics of the SQL expression emitted by `visit_custom_uuid_default`
(the non-postgresql branch), as a function of the drawn random blobs
`b1 b2 b3 b4 b5` (of 4, 2, 2, 2 and 6 bytes) and of `abs(random())`:
`lower(hex(randomblob(4))) || '-' || lower(hex(randomblob(2))) || '-4' ||
substr(lower(hex(randomblob(2))),2) || '-' ||
substr('89ab',abs(random()) % 4 + 1, 1) ||
substr(lower(hex(randomblob(2))),2) || '-' || lower(hex(randomblob(6)))`
(`substr(s,2)` drops the first character). -/
def visit_custom_uuid_default (b1 b2 b3 : List Nat) (r : Nat)
    (b4 b5 : List Nat) : List Char :=
  hexBlobLower b1 ++ '-' :: hexBlobLower b2 ++ '-' :: '4' ::
    (hexBlobLower b3).drop 1 ++ '-' :: variantChar r ::
    (hexBlobLower b4).drop 1 ++ '-' :: hexBlobLower b5

/-- The canonical random-UUID textual layout claimed for the generator:
8-4-4-4-12 lowercase hexadecimal groups separated by hyphens, the version
nibble fixed to `'4'` and the variant character drawn from `8`, `9`, `a`,
`b`. -/
def uuidV4Layout (cs : List Char) : Prop :=
  ∃ (g1 g2 g3 g4 g5 : List Char) (v : Char),
    cs = g1 ++ '-' :: g2 ++ '-' :: '4' :: g3 ++ '-' :: v :: g4 ++
      '-' :: g5 ∧
    g1.length = 8 ∧ g2.length = 4 ∧ g3.length = 3 ∧ g4.length = 3 ∧
    g5.length = 12 ∧
    (∀ c, c ∈ g1 ∨ c ∈ g2 ∨ c ∈ g3 ∨ c ∈ g4 ∨ c ∈ g5 →
      isHexLowerChar c = true) ∧
    v ∈ ['8', '9', 'a', 'b']

/-- Insertion pass of `camel_to_snake.sub("_", name)` for the pattern `(?<!^)(?=[A-Z])`:
an underscore is inserted before every uppercase letter not at the start
of the string. -/
def camel_to_snake_go : List Char → List Char
  | [] => []
  | c :: rest =>
    (if c.isUpper then ['_', c] else [c]) ++ camel_to_snake_go rest

/-- Model of `camel_to_snake.sub("_", s)`: the first character never matches the
lookbehind `(?<!^)`, so insertion starts from the second position. -/
def camel_to_snake_sub (s : List Char) : List Char :=
  match s with
  | [] => []
  | c :: rest => c :: camel_to_snake_go rest

/-- Model of `Base.__tablename__`: `camel_to_snake.sub("_", cls.__name__).lower()`. -/
def table_name (className : String) : String :=
  ⟨(camel_to_snake_sub className.data).map Char.toLower⟩

/-- The table-name rule as the spec words it: lowercase the name and
insert a separator before each interior uppercase letter, never before
the first character. -/
def spec_table_name (className : String) : String :=
  match className.data with
  | [] => ""
  | c :: rest =>
    ⟨c.toLower :: rest.flatMap
      (fun d => if d.isUpper then ['_', d.toLower] else [d.toLower])⟩

/-! ## Theorems -/

theorem inTimezoneUTC_aware (w off : Int) :
    inTimezoneUTC ⟨w, some off⟩ = ⟨w - off, some 0⟩ := rfl

theorem pendulumInstance_aware (w off : Int) :
    pendulumInstance ⟨w, some off⟩ = ⟨w, some off⟩ := rfl

/-- Claim C1: For every timezone-aware instant `t` and every dialect,
decoding the encoding of `t` yields `t` normalized to UTC (same absolute
time, offset 0); and encoding a timezone-naive instant always fails with
the missing-timezone error. -/
theorem timestamp_codec_roundtrip (t : Instant) (d : Dialect) :
    (∀ off, t.tzOffset = some off →
      Timestamp.roundtrip (some t) d = .ok (some (inTimezoneUTC t))) ∧
    (t.tzOffset = none →
      Timestamp.process_bind_param (some t) d =
        .error TimestampError.missingTimezone) := by
  constructor
  · intro off hoff
    obtain ⟨w, tz⟩ := t
    simp only at hoff
    subst hoff
    cases d <;>
      simp [Timestamp.roundtrip, Timestamp.process_bind_param,
        Timestamp.process_result_value, pendulumInstance, inTimezoneUTC]
  · intro hnone
    obtain ⟨w, tz⟩ := t
    simp only at hnone
    subst hnone
    simp [Timestamp.process_bind_param]

/-- Witness for `timestamp_codec_roundtrip` at a concrete aware instant and
a concrete naive instant, on the sqlite dialect. -/
theorem timestamp_codec_roundtrip_witness :
    Timestamp.roundtrip (some ⟨100, some 60⟩) Dialect.sqlite =
        .ok (some (inTimezoneUTC ⟨100, some 60⟩)) ∧
    Timestamp.process_bind_param (some ⟨100, none⟩) Dialect.sqlite =
        .error TimestampError.missingTimezone := by
  refine ⟨(timestamp_codec_roundtrip ⟨100, some 60⟩ Dialect.sqlite).1 60 rfl, ?_⟩
  exact (timestamp_codec_roundtrip ⟨100, none⟩ Dialect.sqlite).2 rfl

theorem natToHex_length : ∀ (w n : Nat), (natToHex w n).length = w
  | 0, _ => rfl
  | w + 1, n => by simp [natToHex, natToHex_length w]

theorem hexVal_hexDigit {k : Nat} (h : k < 16) : hexVal (hexDigit k) = k := by
  interval_cases k <;> decide

theorem hexDigit_isHexLower {k : Nat} (h : k < 16) :
    isHexLowerChar (hexDigit k) = true := by
  interval_cases k <;> decide

theorem isHexChar_of_lower {c : Char} (h : isHexLowerChar c = true) :
    isHexChar c = true := by
  unfold isHexLowerChar at h
  unfold isHexChar
  rcases Bool.or_eq_true_iff.mp h with h1 | h1 <;> simp [h1]

theorem isHexLower_ne_dash {c : Char} (h : isHexLowerChar c = true) :
    (c != '-') = true := by
  rcases Bool.or_eq_true_iff.mp h with h1 | h1 <;>
    · have hr := of_decide_eq_true h1
      simp only [bne_iff_ne, ne_eq]
      rintro rfl
      exact absurd hr (by decide)

theorem natToHex_all_lower :
    ∀ (w n : Nat), n < 16 ^ w → ∀ c ∈ natToHex w n, isHexLowerChar c = true
  | 0, _, _ => by intro c hc; simp [natToHex] at hc
  | w + 1, n, h => by
    intro c hc
    have hdiv : n / 16 ^ w < 16 := by
      refine Nat.div_lt_of_lt_mul ?_
      rw [pow_succ] at h
      exact h
    have hmod : n % 16 ^ w < 16 ^ w :=
      Nat.mod_lt _ (Nat.pos_pow_of_pos w (by norm_num))
    simp only [natToHex, List.mem_cons] at hc
    rcases hc with rfl | hc
    · exact hexDigit_isHexLower hdiv
    · exact natToHex_all_lower w (n % 16 ^ w) hmod c hc

theorem hexListToNat_natToHex :
    ∀ (w n : Nat), n < 16 ^ w → hexListToNat (natToHex w n) = n
  | 0, n, h => by
    have : n = 0 := Nat.lt_one_iff.mp (by simpa using h)
    simp [natToHex, hexListToNat, this]
  | w + 1, n, h => by
    have hdiv : n / 16 ^ w < 16 := by
      refine Nat.div_lt_of_lt_mul ?_
      rw [pow_succ] at h
      exact h
    have hmod : n % 16 ^ w < 16 ^ w :=
      Nat.mod_lt _ (Nat.pos_pow_of_pos w (by norm_num))
    simp only [natToHex, hexListToNat, natToHex_length,
      hexVal_hexDigit hdiv, hexListToNat_natToHex w (n % 16 ^ w) hmod]
    rw [Nat.mul_comm]
    exact Nat.div_add_mod n (16 ^ w)

theorem take_drop_reassemble {α : Type} (l : List α) :
    l.take 8 ++ ((l.drop 8).take 4 ++ ((l.drop 12).take 4 ++
      ((l.drop 16).take 4 ++ l.drop 20))) = l := by
  have h20 : (l.drop 16).drop 4 = l.drop 20 := by
    rw [List.drop_drop]
  have h16 : (l.drop 12).drop 4 = l.drop 16 := by
    rw [List.drop_drop]
  have h12 : (l.drop 8).drop 4 = l.drop 12 := by
    rw [List.drop_drop]
  calc l.take 8 ++ ((l.drop 8).take 4 ++ ((l.drop 12).take 4 ++
          ((l.drop 16).take 4 ++ l.drop 20)))
      = l.take 8 ++ ((l.drop 8).take 4 ++ ((l.drop 12).take 4 ++
          ((l.drop 16).take 4 ++ (l.drop 16).drop 4))) := by rw [h20]
    _ = l.take 8 ++ ((l.drop 8).take 4 ++ ((l.drop 12).take 4 ++ l.drop 16)) := by
          rw [List.take_append_drop]
    _ = l.take 8 ++ ((l.drop 8).take 4 ++ ((l.drop 12).take 4 ++ (l.drop 12).drop 4)) := by
          rw [h16]
    _ = l.take 8 ++ ((l.drop 8).take 4 ++ l.drop 12) := by rw [List.take_append_drop]
    _ = l.take 8 ++ ((l.drop 8).take 4 ++ (l.drop 8).drop 4) := by rw [h12]
    _ = l.take 8 ++ l.drop 8 := by rw [List.take_append_drop]
    _ = l := List.take_append_drop 8 l

theorem natToHex32_all_lower {n : Nat} (h : n < 2 ^ 128) :
    ∀ c ∈ natToHex 32 n, isHexLowerChar c = true :=
  natToHex_all_lower 32 n (by norm_num at h ⊢; exact h)

theorem uuidStr_filter_dash {n : Nat} (h : n < 2 ^ 128) :
    ((uuidStr n).data).filter (fun c => c != '-') = natToHex 32 n := by
  have hall := natToHex32_all_lower h
  have hseg : ∀ sub : List Char, sub ⊆ natToHex 32 n →
      sub.filter (fun c => c != '-') = sub := by
    intro sub hsub
    refine List.filter_eq_self.mpr ?_
    intro c hc
    exact isHexLower_ne_dash (hall c (hsub hc))
  show ((natToHex 32 n).take 8 ++ '-' :: ((natToHex 32 n).drop 8).take 4 ++
      '-' :: ((natToHex 32 n).drop 12).take 4 ++
      '-' :: ((natToHex 32 n).drop 16).take 4 ++
      '-' :: (natToHex 32 n).drop 20).filter (fun c => c != '-') = natToHex 32 n
  rw [List.filter_append, List.filter_append, List.filter_append,
    List.filter_append]
  simp only [List.filter_cons]
  norm_num
  rw [hseg _ (List.take_subset _ _),
    hseg _ (List.Subset.trans (List.take_subset _ _) (List.drop_subset _ _)),
    hseg _ (List.Subset.trans (List.take_subset _ _) (List.drop_subset _ _)),
    hseg _ (List.Subset.trans (List.take_subset _ _) (List.drop_subset _ _)),
    hseg _ (List.drop_subset _ _)]
  exact take_drop_reassemble (natToHex 32 n)

theorem uuidStr_length (n : Nat) : (uuidStr n).length = 36 := by
  have hlen := natToHex_length 32 n
  simp only [uuidStr, String.length]
  simp [List.length_take, List.length_drop, hlen]

theorem uuidParse_uuidStr {n : Nat} (h : n < 2 ^ 128) :
    uuidParse (uuidStr n) = some n := by
  unfold uuidParse
  rw [uuidStr_filter_dash h]
  have hlen := natToHex_length 32 n
  have hall : (natToHex 32 n).all isHexChar = true := by
    rw [List.all_eq_true]
    intro c hc
    exact isHexChar_of_lower (natToHex32_all_lower h c hc)
  rw [if_pos ⟨hlen, hall⟩]
  rw [hexListToNat_natToHex 32 n (by norm_num at h ⊢; exact h)]

/-- Claim C2: For every valid 128-bit identifier `n` and every dialect,
decoding the encoding of `n` returns `n`; and the encoded form (on every
dialect, in particular the non-server branch) is a 36-character string of
lowercase hexadecimal digits and hyphens. -/
theorem uuid_codec_roundtrip (n : Nat) (h : n < 2 ^ 128) (d : Dialect) :
    UUID.process_bind_param (some (UuidValue.uuid n)) d = .ok (some (uuidStr n)) ∧
    UUID.process_result_value (some (UuidValue.str (uuidStr n))) d = .ok (some n) ∧
    (uuidStr n).length = 36 ∧
    (∀ c ∈ (uuidStr n).data, isHexLowerChar c = true ∨ c = '-') := by
  refine ⟨?_, ?_, uuidStr_length n, ?_⟩
  · cases d <;> simp [UUID.process_bind_param, uuidValueStr]
  · simp [UUID.process_result_value, uuidParse_uuidStr h]
  · intro c hc
    by_cases hdash : c = '-'
    · exact .inr hdash
    · left
      have hmem : c ∈ ((uuidStr n).data).filter (fun x => x != '-') := by
        refine List.mem_filter.mpr ⟨hc, ?_⟩
        simpa [bne_iff_ne] using hdash
      rw [uuidStr_filter_dash h] at hmem
      exact natToHex32_all_lower h c hmem

/-- Witness for `uuid_codec_roundtrip` at the concrete identifier 300 on
the sqlite dialect. -/
theorem uuid_codec_roundtrip_witness :
    (300 : Nat) < 2 ^ 128 ∧
    (UUID.process_bind_param (some (UuidValue.uuid 300)) Dialect.sqlite =
        .ok (some (uuidStr 300)) ∧
      UUID.process_result_value (some (UuidValue.str (uuidStr 300)))
          Dialect.sqlite = .ok (some 300) ∧
      (uuidStr 300).length = 36 ∧
      (∀ c ∈ (uuidStr 300).data, isHexLowerChar c = true ∨ c = '-')) :=
  ⟨by norm_num, uuid_codec_roundtrip 300 (by norm_num) Dialect.sqlite⟩

theorem map_toLower_camel_go (l : List Char) :
    (camel_to_snake_go l).map Char.toLower =
      l.flatMap (fun d => if d.isUpper then ['_', d.toLower] else [d.toLower]) := by
  induction l with
  | nil => rfl
  | cons c rest ih =>
    by_cases h : c.isUpper <;>
      simp [camel_to_snake_go, h, ih, List.flatMap_cons]

/-- Claim C7: `table_name` is a pure total function agreeing everywhere with
the spec's rule — lowercase the type name, inserting an underscore before
each interior uppercase letter and never before the first character — and
in particular maps `"TaskRunState"` to `"task_run_state"` and `"Flow"` to
`"flow"`. -/
theorem table_name_correct (s : String) :
    table_name s = spec_table_name s ∧
    table_name "TaskRunState" = "task_run_state" ∧
    table_name "Flow" = "flow" := by
  refine ⟨?_, by decide, by decide⟩
  obtain ⟨data⟩ := s
  cases data with
  | nil => rfl
  | cons c rest =>
    simp only [table_name, spec_table_name, camel_to_snake_sub, List.map_cons]
    rw [map_toLower_camel_go]

/-- Claim C10: For every dialect and every declared schema, all three codecs
map the absent value `None` to `None` in both directions, skipping the
missing-timezone rejection and the schema validation. -/
theorem codecs_none_passthrough (d : Dialect) (T : PydanticModel) :
    Timestamp.process_bind_param none d = .ok none ∧
    Timestamp.process_result_value none d = none ∧
    Pydantic.process_bind_param T none d = .ok none ∧
    Pydantic.process_result_value T none d = .ok none ∧
    UUID.process_bind_param none d = .ok none ∧
    UUID.process_result_value none d = .ok none :=
  ⟨rfl, rfl, rfl, rfl, rfl, rfl⟩

/-- Claim C3: For every declared schema, dialect and document: a conforming
document is encoded to the JSON-compatible tree produced by the canonical
encoder (not a string) and decoding that encoding returns the document;
a non-conforming document makes encoding fail with the schema-validation
error, which is propagated unchanged. -/
theorem pydantic_codec_roundtrip (T : PydanticModel) (v : Json) (d : Dialect) :
    (T.parse_obj_as v = .ok v →
      Pydantic.process_bind_param T (some v) d = .ok (some (T.encodeTree v)) ∧
      Pydantic.roundtrip T (some v) d = .ok (some v)) ∧
    (∀ e, T.parse_obj_as v = .error e →
      Pydantic.process_bind_param T (some v) d = .error e) := by
  refine ⟨fun hv => ⟨?_, ?_⟩, fun e he => ?_⟩
  · simp [Pydantic.process_bind_param, hv]
  · simp [Pydantic.roundtrip, Pydantic.process_bind_param, hv,
      Pydantic.process_result_value, T.parse_encode v hv]
  · simp [Pydantic.process_bind_param, he]

/-- Witness for `pydantic_codec_roundtrip` on the concrete string schema:
a conforming document round-trips, a non-conforming one is rejected. -/
theorem pydantic_codec_roundtrip_witness :
    (strSchema.parse_obj_as (Json.str "doc") = .ok (Json.str "doc") ∧
      (Pydantic.process_bind_param strSchema (some (Json.str "doc"))
          Dialect.sqlite = .ok (some (strSchema.encodeTree (Json.str "doc"))) ∧
        Pydantic.roundtrip strSchema (some (Json.str "doc")) Dialect.sqlite =
          .ok (some (Json.str "doc")))) ∧
    (strSchema.parse_obj_as (Json.num 3) = .error ⟨["__root__"]⟩ ∧
      Pydantic.process_bind_param strSchema (some (Json.num 3))
        Dialect.sqlite = .error ⟨["__root__"]⟩) :=
  ⟨⟨rfl, (pydantic_codec_roundtrip strSchema (Json.str "doc") Dialect.sqlite).1 rfl⟩,
   ⟨rfl, (pydantic_codec_roundtrip strSchema (Json.num 3) Dialect.sqlite).2
      ⟨["__root__"]⟩ rfl⟩⟩

theorem assocFind_mem {κ : Type} [DecidableEq κ] :
    ∀ {entries : List (κ × Nat)} {k : κ} {v : Nat},
      assocFind entries k = some v → (k, v) ∈ entries := by
  intro entries
  induction entries with
  | nil => intro k v h; simp [assocFind] at h
  | cons hd tl ih =>
    intro k v h
    obtain ⟨k2, v2⟩ := hd
    by_cases hk : k2 = k
    · subst hk
      simp [assocFind] at h
      simp [h]
    · rw [assocFind, if_neg hk] at h
      exact List.mem_cons_of_mem _ (ih h)

theorem assocFind_cons_self {κ : Type} [DecidableEq κ]
    (entries : List (κ × Nat)) (k : κ) (v : Nat) :
    assocFind ((k, v) :: entries) k = some v := by
  simp [assocFind]

theorem assocFind_cons_ne {κ : Type} [DecidableEq κ]
    (entries : List (κ × Nat)) {k1 k : κ} (v : Nat) (h : k1 ≠ k) :
    assocFind ((k1, v) :: entries) k = assocFind entries k := by
  simp [assocFind, h]

theorem memoAlloc_mem {κ : Type} [DecidableEq κ] (k : κ)
    (entries : List (κ × Nat)) (next : Nat) :
    (k, (memoAlloc k entries next).1) ∈ (memoAlloc k entries next).2.1 := by
  unfold memoAlloc
  cases h : assocFind entries k with
  | some v => exact assocFind_mem h
  | none => exact List.mem_cons_self _ _

theorem memoAlloc_eq_some {κ : Type} [DecidableEq κ] {k : κ} {v : Nat}
    {entries : List (κ × Nat)} (next : Nat) (h : assocFind entries k = some v) :
    memoAlloc k entries next = (v, entries, next) := by
  simp [memoAlloc, h]

theorem memoAlloc_eq_none {κ : Type} [DecidableEq κ] {k : κ}
    {entries : List (κ × Nat)} (next : Nat) (h : assocFind entries k = none) :
    memoAlloc k entries next = (next, (k, next) :: entries, next + 1) := by
  simp [memoAlloc, h]

theorem memoAlloc_idem {κ : Type} [DecidableEq κ] (k : κ)
    (entries : List (κ × Nat)) (next : Nat) :
    memoAlloc k (memoAlloc k entries next).2.1 (memoAlloc k entries next).2.2 =
      memoAlloc k entries next := by
  cases h : assocFind entries k with
  | some v =>
    rw [memoAlloc_eq_some next h]
    exact memoAlloc_eq_some next h
  | none =>
    rw [memoAlloc_eq_none next h]
    exact memoAlloc_eq_some _ (assocFind_cons_self _ _ _)

theorem memoAlloc_bounded {κ : Type} [DecidableEq κ] {k : κ}
    {entries : List (κ × Nat)} {next : Nat} (hB : CacheBounded entries next) :
    CacheBounded (memoAlloc k entries next).2.1 (memoAlloc k entries next).2.2 := by
  cases h : assocFind entries k with
  | some v =>
    rw [memoAlloc_eq_some next h]
    exact hB
  | none =>
    rw [memoAlloc_eq_none next h]
    dsimp only
    intro k0 v0 hmem
    rcases List.mem_cons.mp hmem with heq | hold
    · have : v0 = next := congrArg Prod.snd heq
      omega
    · exact Nat.lt_succ_of_lt (hB _ _ hold)

theorem memoAlloc_inj {κ : Type} [DecidableEq κ] {k : κ}
    {entries : List (κ × Nat)} {next : Nat}
    (hB : CacheBounded entries next) (hI : CacheInj entries) :
    CacheInj (memoAlloc k entries next).2.1 := by
  cases h : assocFind entries k with
  | some v =>
    rw [memoAlloc_eq_some next h]
    exact hI
  | none =>
    rw [memoAlloc_eq_none next h]
    dsimp only
    intro k1 v1 k2 v2 h1 h2 hv
    rcases List.mem_cons.mp h1 with he1 | ho1 <;>
      rcases List.mem_cons.mp h2 with he2 | ho2
    · have e1 := congrArg Prod.fst he1
      have e2 := congrArg Prod.fst he2
      simp at e1 e2
      rw [e1, e2]
    · have e1 := congrArg Prod.snd he1
      simp at e1
      have := hB _ _ ho2
      omega
    · have e2 := congrArg Prod.snd he2
      simp at e2
      have := hB _ _ ho1
      omega
    · exact hI _ _ _ _ ho1 ho2 hv

theorem memoAlloc_ne {κ : Type} [DecidableEq κ] {k k0 : κ} {v0 : Nat}
    {entries : List (κ × Nat)} {next : Nat}
    (hB : CacheBounded entries next) (hI : CacheInj entries)
    (hmem : (k0, v0) ∈ entries) (hne : k ≠ k0) :
    (memoAlloc k entries next).1 ≠ v0 := by
  cases h : assocFind entries k with
  | some v =>
    rw [memoAlloc_eq_some next h]
    intro hv
    exact hne (hI _ _ _ _ (assocFind_mem h) hmem hv)
  | none =>
    rw [memoAlloc_eq_none next h]
    dsimp only
    have := hB _ _ hmem
    omega

/-- Claim C4: From any well-formed cache state: the cache key includes the
execution context, so keys differing only by it never collide; two
`get_engine` calls from the same execution context with the same
connection string and echo flag return the identity-equal engine (and
leave the cache unchanged on the second call); and a call from a distinct
execution context with the same arguments returns a non-identical
engine. -/
theorem get_engine_context_isolation (st : Settings) (loop1 loop2 : Nat)
    (url : String) (echo : Bool) (s : EngineCache)
    (hWF : s.WF) (hne : loop1 ≠ loop2) :
    ((loop1, url, echo) : EngineKey) ≠ ((loop2, url, echo) : EngineKey) ∧
    ∃ e1 s1,
      get_engine st (.ok ()) loop1 (some url) (some echo) s = (.ok e1, s1) ∧
      get_engine st (.ok ()) loop1 (some url) (some echo) s1 = (.ok e1, s1) ∧
      ∃ e2, (get_engine st (.ok ()) loop2 (some url) (some echo) s1).1 = .ok e2 ∧
        e2 ≠ e1 := by
  obtain ⟨hB, hI⟩ := hWF
  have hkey : ((loop1, url, echo) : EngineKey) ≠ ((loop2, url, echo) : EngineKey) := by
    intro h
    exact hne (congrArg Prod.fst h)
  refine ⟨hkey, ?_⟩
  cases h1 : assocFind s.entries ((loop1, url, echo) : EngineKey) with
  | some e1 =>
    refine ⟨e1, s, by simp [get_engine, h1], by simp [get_engine, h1], ?_⟩
    cases h2 : assocFind s.entries ((loop2, url, echo) : EngineKey) with
    | some e2 =>
      refine ⟨e2, by simp [get_engine, h2], ?_⟩
      intro heq
      exact hkey (hI _ _ _ _ (assocFind_mem h1) (assocFind_mem h2) heq.symm)
    | none =>
      refine ⟨s.nextId, by simp [get_engine, h2], ?_⟩
      have := hB _ _ (assocFind_mem h1)
      omega
  | none =>
    refine ⟨s.nextId, ⟨((loop1, url, echo), s.nextId) :: s.entries, s.nextId + 1⟩,
      by simp [get_engine, h1], ?_, ?_⟩
    · simp [get_engine, assocFind_cons_self]
    · have h2' : assocFind (((loop1, url, echo), s.nextId) :: s.entries)
          ((loop2, url, echo) : EngineKey) =
          assocFind s.entries ((loop2, url, echo) : EngineKey) :=
        assocFind_cons_ne _ _ hkey
      cases h2 : assocFind s.entries ((loop2, url, echo) : EngineKey) with
      | some e2 =>
        refine ⟨e2, by simp [get_engine, h2', h2], ?_⟩
        have := hB _ _ (assocFind_mem h2)
        omega
      | none =>
        refine ⟨s.nextId + 1, by simp [get_engine, h2', h2], ?_⟩
        omega

/-- Witness for `get_engine_context_isolation`: the empty cache, execution
contexts 0 and 1. -/
theorem get_engine_context_isolation_witness :
    EngineCache.WF ⟨[], 0⟩ ∧ (0 : Nat) ≠ 1 ∧
    (((0, "url", false) : EngineKey) ≠ ((1, "url", false) : EngineKey) ∧
      ∃ e1 s1,
        get_engine ⟨"default", true⟩ (.ok ()) 0 (some "url") (some false)
          ⟨[], 0⟩ = (.ok e1, s1) ∧
        get_engine ⟨"default", true⟩ (.ok ()) 0 (some "url") (some false) s1 =
          (.ok e1, s1) ∧
        ∃ e2, (get_engine ⟨"default", true⟩ (.ok ()) 1 (some "url")
            (some false) s1).1 = .ok e2 ∧ e2 ≠ e1) :=
  ⟨⟨by intro k v h; simp at h, by intro k1 v1 k2 v2 h1 h2 _; simp at h1⟩,
    by decide,
    get_engine_context_isolation ⟨"default", true⟩ 0 1 "url" false ⟨[], 0⟩
      ⟨by intro k v h; simp at h, by intro k1 v1 k2 v2 h1 h2 _; simp at h1⟩
      (by decide)⟩

/-- Claim C6: If the key is not cached and the underlying creation attempt
raises inside `get_engine`, the error propagates to the caller and the
cache state is returned unchanged — nothing is stored under the key — so
a subsequent call with the same key retries the creation (here:
successfully creating and caching a fresh engine) instead of replaying
the failure. -/
theorem get_engine_failure_not_cached (st : Settings) (loop : Nat)
    (url : String) (echo : Bool) (s : EngineCache) (err : ConnError)
    (hmiss : assocFind s.entries ((loop, url, echo) : EngineKey) = none) :
    get_engine st (.error err) loop (some url) (some echo) s =
      (.error err, s) ∧
    get_engine st (.ok ()) loop (some url) (some echo) s =
      (.ok s.nextId, ⟨((loop, url, echo), s.nextId) :: s.entries, s.nextId + 1⟩) := by
  constructor <;> simp [get_engine, hmiss]

/-- Witness for `get_engine_failure_not_cached`: the empty cache. -/
theorem get_engine_failure_not_cached_witness :
    assocFind (⟨[], 7⟩ : EngineCache).entries ((0, "url", false) : EngineKey) =
        none ∧
    (get_engine ⟨"default", true⟩ (.error .connectionFailure) 0 (some "url")
        (some false) ⟨[], 7⟩ = (.error .connectionFailure, ⟨[], 7⟩) ∧
      get_engine ⟨"default", true⟩ (.ok ()) 0 (some "url") (some false)
        ⟨[], 7⟩ = (.ok 7, ⟨[((0, "url", false), 7)], 8⟩)) :=
  ⟨rfl, get_engine_failure_not_cached ⟨"default", true⟩ 0 "url" false ⟨[], 7⟩
    .connectionFailure rfl⟩

/-- Claim C5: From any well-formed cache state: `get_session_factory` is
memoized on the key `(execution context, engine identity)` — a repeated
call returns the identity-equal factory and leaves the cache unchanged,
while a distinct execution context obtains a non-identical factory for
the same engine; and a factory invoked repeatedly from the same task
yields the identity-equal session, while a different task — or the other
context's factory — obtains an independent session. -/
theorem session_factory_scoping (loop1 loop2 bind t1 t2 : Nat)
    (s : SessionCache) (hWF : s.WF) (hloop : loop1 ≠ loop2)
    (htask : t1 ≠ t2) :
    ∃ f1 s1, get_session_factory loop1 bind s = (f1, s1) ∧
      get_session_factory loop1 bind s1 = (f1, s1) ∧
      ∃ f2 s2, get_session_factory loop2 bind s1 = (f2, s2) ∧ f2 ≠ f1 ∧
      ∃ a1 s3, call_session_factory f1 t1 s2 = (a1, s3) ∧
        (call_session_factory f1 t1 s3).1 = a1 ∧
        (call_session_factory f1 t2 s3).1 ≠ a1 ∧
        (call_session_factory f2 t1 s3).1 ≠ a1 := by
  obtain ⟨hFB, hFI, hSB, hSI⟩ := hWF
  set m1 := memoAlloc (loop1, bind) s.factories s.nextFactory with hm1
  have idem1 : memoAlloc (loop1, bind) m1.2.1 m1.2.2 = m1 := by
    rw [hm1]
    exact memoAlloc_idem _ _ _
  have hmem1 : ((loop1, bind), m1.1) ∈ m1.2.1 := by
    rw [hm1]
    exact memoAlloc_mem _ _ _
  have hFB1 : CacheBounded m1.2.1 m1.2.2 := by
    rw [hm1]
    exact memoAlloc_bounded hFB
  have hFI1 : CacheInj m1.2.1 := by
    rw [hm1]
    exact memoAlloc_inj hFB hFI
  refine ⟨m1.1, ⟨m1.2.1, m1.2.2, s.sessions, s.nextSession⟩, rfl, ?_, ?_⟩
  · show ((memoAlloc (loop1, bind) m1.2.1 m1.2.2).1,
      (⟨(memoAlloc (loop1, bind) m1.2.1 m1.2.2).2.1,
        (memoAlloc (loop1, bind) m1.2.1 m1.2.2).2.2,
        s.sessions, s.nextSession⟩ : SessionCache)) = _
    rw [idem1]
  · set m2 := memoAlloc (loop2, bind) m1.2.1 m1.2.2 with hm2
    have hk21 : ((loop2, bind) : Nat × Nat) ≠ (loop1, bind) := by
      intro h
      exact hloop (congrArg Prod.fst h).symm
    have hne21 : m2.1 ≠ m1.1 := by
      rw [hm2]
      exact memoAlloc_ne hFB1 hFI1 hmem1 hk21
    refine ⟨m2.1, ⟨m2.2.1, m2.2.2, s.sessions, s.nextSession⟩, rfl, hne21, ?_⟩
    set m3 := memoAlloc (m1.1, t1) s.sessions s.nextSession with hm3
    have idem3 : memoAlloc (m1.1, t1) m3.2.1 m3.2.2 = m3 := by
      rw [hm3]
      exact memoAlloc_idem _ _ _
    have hmem3 : ((m1.1, t1), m3.1) ∈ m3.2.1 := by
      rw [hm3]
      exact memoAlloc_mem _ _ _
    have hSB3 : CacheBounded m3.2.1 m3.2.2 := by
      rw [hm3]
      exact memoAlloc_bounded hSB
    have hSI3 : CacheInj m3.2.1 := by
      rw [hm3]
      exact memoAlloc_inj hSB hSI
    refine ⟨m3.1, ⟨m2.2.1, m2.2.2, m3.2.1, m3.2.2⟩, rfl, ?_, ?_, ?_⟩
    · exact congrArg Prod.fst idem3
    · have hkt : ((m1.1, t2) : Nat × Nat) ≠ (m1.1, t1) := by
        intro h
        injection h with h1 h2
        exact htask h2.symm
      exact memoAlloc_ne hSB3 hSI3 hmem3 hkt
    · have hkf : ((m2.1, t1) : Nat × Nat) ≠ (m1.1, t1) := by
        intro h
        injection h with h1 h2
        exact hne21 h1
      exact memoAlloc_ne hSB3 hSI3 hmem3 hkf

/-- Witness for `session_factory_scoping`: the empty cache, execution
contexts 0 and 1, tasks 0 and 1, engine 5. -/
theorem session_factory_scoping_witness :
    SessionCache.WF ⟨[], 0, [], 0⟩ ∧ (0 : Nat) ≠ 1 ∧
    (∃ f1 s1, get_session_factory 0 5 ⟨[], 0, [], 0⟩ = (f1, s1) ∧
      get_session_factory 0 5 s1 = (f1, s1) ∧
      ∃ f2 s2, get_session_factory 1 5 s1 = (f2, s2) ∧ f2 ≠ f1 ∧
      ∃ a1 s3, call_session_factory f1 0 s2 = (a1, s3) ∧
        (call_session_factory f1 0 s3).1 = a1 ∧
        (call_session_factory f1 1 s3).1 ≠ a1 ∧
        (call_session_factory f2 0 s3).1 ≠ a1) :=
  ⟨⟨by intro k v h; simp at h, by intro k1 v1 k2 v2 h1 h2 _; simp at h1,
     by intro k v h; simp at h, by intro k1 v1 k2 v2 h1 h2 _; simp at h1⟩,
   by decide,
   session_factory_scoping 0 1 5 0 1 ⟨[], 0, [], 0⟩
     ⟨by intro k v h; simp at h, by intro k1 v1 k2 v2 h1 h2 _; simp at h1,
      by intro k v h; simp at h, by intro k1 v1 k2 v2 h1 h2 _; simp at h1⟩
     (by decide) (by decide)⟩

/-- Counterexample to claim C8 as stated: the first engine-connect event of
the process goes to a durable, file-backed sqlite store (`orion.db`,
neither `":memory:"` nor absent), yet the hook enables the backend's
foreign-key enforcement there — so the side effect is not confined to
zero-configuration in-memory stores and is triggered against a durable
store. -/
theorem setup_sqlite_durable_store_counterexample :
    (0, SetupEffect.enableForeignKeys) ∈
        run_engine_connect_events [⟨"sqlite", some "orion.db"⟩] ∧
    (⟨"sqlite", some "orion.db"⟩ : ConnUrl).database ≠ some ":memory:" ∧
    (⟨"sqlite", some "orion.db"⟩ : ConnUrl).database ≠ none ∧
    (0, SetupEffect.createAllTables) ∉
        run_engine_connect_events [⟨"sqlite", some "orion.db"⟩] := by
  refine ⟨?_, by decide, by decide, ?_⟩ <;> decide

/-- Claim C8, amended: The `once=True` listener runs for the first
engine-connect event of the process only, whichever engine it belongs to:
if that first connection's backend is sqlite, foreign-key enforcement is
enabled (for durable file-backed sqlite stores as well), and the full
schema is additionally created exactly when the database is in-memory
(`":memory:"` or unset); no event after the first one ever triggers
either effect, and a non-sqlite first connection triggers nothing. -/
theorem setup_sqlite_first_event_only (events : List ConnUrl) (e : ConnUrl)
    (rest : List ConnUrl) (h : events = e :: rest) :
    ((0, SetupEffect.enableForeignKeys) ∈ run_engine_connect_events events ↔
      e.backend = "sqlite") ∧
    ((0, SetupEffect.createAllTables) ∈ run_engine_connect_events events ↔
      e.backend = "sqlite" ∧
        (e.database = some ":memory:" ∨ e.database = none)) ∧
    (∀ i eff, (i, eff) ∈ run_engine_connect_events events → i = 0) := by
  subst h
  refine ⟨?_, ?_, ?_⟩ <;>
    by_cases hb : e.backend = "sqlite" <;>
    by_cases hd : e.database = some ":memory:" ∨ e.database = none <;>
    simp [run_engine_connect_events, setup_sqlite, hb, hd] <;>
    tauto

/-- Witness for `setup_sqlite_first_event_only`: a two-event trace whose
first connection is an in-memory sqlite store followed by a durable one;
only the first event acts. -/
theorem setup_sqlite_first_event_only_witness :
    ([(⟨"sqlite", none⟩ : ConnUrl), ⟨"sqlite", some "orion.db"⟩] =
        (⟨"sqlite", none⟩ : ConnUrl) :: [⟨"sqlite", some "orion.db"⟩]) ∧
    (((0, SetupEffect.enableForeignKeys) ∈
        run_engine_connect_events
          [(⟨"sqlite", none⟩ : ConnUrl), ⟨"sqlite", some "orion.db"⟩] ↔
      (⟨"sqlite", none⟩ : ConnUrl).backend = "sqlite") ∧
    ((0, SetupEffect.createAllTables) ∈
        run_engine_connect_events
          [(⟨"sqlite", none⟩ : ConnUrl), ⟨"sqlite", some "orion.db"⟩] ↔
      (⟨"sqlite", none⟩ : ConnUrl).backend = "sqlite" ∧
        ((⟨"sqlite", none⟩ : ConnUrl).database = some ":memory:" ∨
          (⟨"sqlite", none⟩ : ConnUrl).database = none)) ∧
    (∀ i eff, (i, eff) ∈
        run_engine_connect_events
          [(⟨"sqlite", none⟩ : ConnUrl), ⟨"sqlite", some "orion.db"⟩] →
      i = 0)) :=
  ⟨rfl, setup_sqlite_first_event_only _ (⟨"sqlite", none⟩ : ConnUrl)
    [⟨"sqlite", some "orion.db"⟩] rfl⟩

theorem hexBlobLower_length (bs : List Nat) :
    (hexBlobLower bs).length = 2 * bs.length := by
  induction bs with
  | nil => rfl
  | cons b rest ih =>
    simp only [hexBlobLower, List.flatMap_cons] at ih ⊢
    simp [ih]
    omega

theorem hexBlobLower_all_lower {bs : List Nat} (hb : ∀ b ∈ bs, b < 256) :
    ∀ c ∈ hexBlobLower bs, isHexLowerChar c = true := by
  intro c hc
  simp only [hexBlobLower, List.mem_flatMap] at hc
  obtain ⟨b, hbmem, hcmem⟩ := hc
  have h256 := hb b hbmem
  have hdiv : b / 16 < 16 := Nat.div_lt_of_lt_mul (by omega)
  have hmod : b % 16 < 16 := Nat.mod_lt _ (by norm_num)
  simp only [List.mem_cons, List.not_mem_nil, or_false] at hcmem
  rcases hcmem with rfl | rfl
  · exact hexDigit_isHexLower hdiv
  · exact hexDigit_isHexLower hmod

theorem variantChar_mem (r : Nat) :
    variantChar r ∈ (['8', '9', 'a', 'b'] : List Char) := by
  have h4 : r % 4 < 4 := Nat.mod_lt _ (by norm_num)
  have hcases : r % 4 = 0 ∨ r % 4 = 1 ∨ r % 4 = 2 ∨ r % 4 = 3 := by omega
  rcases hcases with h | h | h | h <;>
    · unfold variantChar
      rw [h]
      decide

/-- Claim C9: For every draw of the random blobs (4, 2, 2, 2 and 6 bytes)
and of `abs(random())`, the string produced by the non-server default
generator matches the canonical UUID textual layout — 8-4-4-4-12
lowercase hexadecimal groups with the version nibble fixed to `'4'` and
the variant character drawn from 8, 9, a, b — while the server dialect
generator instead emits a call to the backend's cryptographically-random
UUID primitive `GEN_RANDOM_UUID()`. -/
theorem uuid_default_generator (b1 b2 b3 b4 b5 : List Nat) (r : Nat)
    (h1 : b1.length = 4) (h2 : b2.length = 2) (h3 : b3.length = 2)
    (h4 : b4.length = 2) (h5 : b5.length = 6)
    (hb1 : ∀ b ∈ b1, b < 256) (hb2 : ∀ b ∈ b2, b < 256)
    (hb3 : ∀ b ∈ b3, b < 256) (hb4 : ∀ b ∈ b4, b < 256)
    (hb5 : ∀ b ∈ b5, b < 256) :
    uuidV4Layout (visit_custom_uuid_default b1 b2 b3 r b4 b5) ∧
    visit_custom_uuid_default_for_postgres = "(GEN_RANDOM_UUID())" := by
  refine ⟨⟨hexBlobLower b1, hexBlobLower b2, (hexBlobLower b3).drop 1,
    (hexBlobLower b4).drop 1, hexBlobLower b5, variantChar r,
    rfl, ?_, ?_, ?_, ?_, ?_, ?_, variantChar_mem r⟩, rfl⟩
  · rw [hexBlobLower_length, h1]
  · rw [hexBlobLower_length, h2]
  · rw [List.length_drop, hexBlobLower_length, h3]
  · rw [List.length_drop, hexBlobLower_length, h4]
  · rw [hexBlobLower_length, h5]
  · intro c hc
    rcases hc with hm | hm | hm | hm | hm
    · exact hexBlobLower_all_lower hb1 c hm
    · exact hexBlobLower_all_lower hb2 c hm
    · exact hexBlobLower_all_lower hb3 c (List.drop_subset _ _ hm)
    · exact hexBlobLower_all_lower hb4 c (List.drop_subset _ _ hm)
    · exact hexBlobLower_all_lower hb5 c hm

/-- Witness for `uuid_default_generator` at concrete blobs. -/
theorem uuid_default_generator_witness :
    ([0, 1, 2, 3] : List Nat).length = 4 ∧
    ([4, 5] : List Nat).length = 2 ∧
    ([6, 7] : List Nat).length = 2 ∧
    ([8, 9] : List Nat).length = 2 ∧
    ([250, 251, 252, 253, 254, 255] : List Nat).length = 6 ∧
    (∀ b ∈ ([0, 1, 2, 3] : List Nat), b < 256) ∧
    (∀ b ∈ ([4, 5] : List Nat), b < 256) ∧
    (∀ b ∈ ([6, 7] : List Nat), b < 256) ∧
    (∀ b ∈ ([8, 9] : List Nat), b < 256) ∧
    (∀ b ∈ ([250, 251, 252, 253, 254, 255] : List Nat), b < 256) ∧
    (uuidV4Layout (visit_custom_uuid_default [0, 1, 2, 3] [4, 5] [6, 7] 9
        [8, 9] [250, 251, 252, 253, 254, 255]) ∧
      visit_custom_uuid_default_for_postgres = "(GEN_RANDOM_UUID())") :=
  ⟨rfl, rfl, rfl, rfl, rfl, by decide, by decide, by decide, by decide,
    by decide,
    uuid_default_generator [0, 1, 2, 3] [4, 5] [6, 7] [8, 9]
      [250, 251, 252, 253, 254, 255] 9 rfl rfl rfl rfl rfl (by decide)
      (by decide) (by decide) (by decide) (by decide)⟩
